import Mathlib

/-!
Shallow embedding of the speed-tester pipeline (index.js, request-tests.js and
the retry submitter) and proofs about its aggregation, grouping, retry and
error-handling behaviour.

Modelling conventions:
* ISO-8601 timestamps are order-isomorphic to numbers in the code (the sort
  comparator is `new Date(b.timestamp) - new Date(a.timestamp)`), so they are
  modelled as `Nat`.
* JavaScript numbers used for scores/metrics are modelled as `Int`.
* A network/filesystem interaction is modelled by an explicit oracle argument
  (the outcome each call would produce); `Except` models a thrown error.
-/

/-- A stored result record.  `runAllTests` pushes the provider response object
(`results.push({...data})`), so the record carries the provider `status` field
alongside the fields that the report reads (`url`, `location`, `timestamp`,
`performance`, `lcp`, `fcp`, `cls`). -/
structure TestResult where
  url : String
  location : String
  timestamp : Nat
  performance : Int
  lcp : Int
  fcp : Int
  cls : Int
  status : String
deriving DecidableEq, Repr

/-- Outcome of `fs.readFile(RESULTS_FILE)` followed by `JSON.parse`:
either the parsed array, a missing file (error code `ENOENT`), or any other
read/parse failure (a corrupt file lands here, since `JSON.parse` throws an
error whose `code` is not `ENOENT`). -/
inductive ReadOutcome where
  | ok (results : List TestResult)
  | enoent
  | otherError
deriving DecidableEq, Repr

/-- Observable outcome of `updateResultsFile`: the value returned (or the
error thrown), the contents written to the results file (`none` when the file
is not rewritten), and the console messages emitted. -/
structure UpdateOutcome where
  result : Except String (List TestResult)
  written : Option (List TestResult)
  logs : List String
deriving Repr

/-- Embedding of `updateResultsFile` (index.js).  The `try`/`catch` around the
read keeps `existingResults = []` on every failure; only the log message
distinguishes `ENOENT` from other errors.  The combined array
`[...existingResults, ...newResults]` is then always written back. -/
def updateResultsFile (read₀ : ReadOutcome) (newResults : List TestResult) :
    UpdateOutcome :=
  let existingResults : List TestResult :=
    match read₀ with
    | ReadOutcome.ok rs => rs
    | ReadOutcome.enoent => []
    | ReadOutcome.otherError => []
  let readLogs : List String :=
    match read₀ with
    | ReadOutcome.ok _ => []
    | ReadOutcome.enoent => ["Results file not found, creating a new one."]
    | ReadOutcome.otherError => ["Error reading results file:"]
  let allResults := existingResults ++ newResults
  ⟨Except.ok allResults, some allResults,
    readLogs ++ ["Successfully updated results file"]⟩

/-- A concrete incoming batch used at counterexample/witness inputs. -/
def cxIncoming : List TestResult :=
  [⟨"https://x.test", "uk", 1, 95, 1, 1, 0, "success"⟩]

/-- Claim C1 counterexample: with a corrupt (non-ENOENT) read outcome and one
incoming result, `updateResultsFile` does not propagate the error (it returns
`Except.ok`) and it does rewrite the file — with the incoming results only, so
the previously recorded history is replaced by a fresh baseline. -/
theorem c1_counterexample :
    (updateResultsFile ReadOutcome.otherError cxIncoming).result =
      Except.ok cxIncoming
    ∧ (updateResultsFile ReadOutcome.otherError cxIncoming).written =
      some cxIncoming
    ∧ (updateResultsFile ReadOutcome.otherError cxIncoming).written ≠ none := by
  refine ⟨rfl, rfl, ?_⟩
  simp [updateResultsFile]

/-- Claim C1 (amended): every read outcome — parsed content, missing file, or
corrupt/unparsable content — lets the run proceed: the error is never
propagated, prior history is treated as empty on any failure, and the file is
always rewritten with `existing ++ incoming`.  Only the log message
distinguishes the benign ENOENT case from other read/parse failures. -/
theorem c1_read_failure_behaviour (read₀ : ReadOutcome)
    (incoming : List TestResult) :
    (updateResultsFile read₀ incoming).result =
      Except.ok
        ((match read₀ with | ReadOutcome.ok rs => rs | _ => []) ++ incoming)
    ∧ (updateResultsFile read₀ incoming).written =
      some ((match read₀ with | ReadOutcome.ok rs => rs | _ => []) ++ incoming)
    ∧ (read₀ = ReadOutcome.enoent →
        "Results file not found, creating a new one." ∈
          (updateResultsFile read₀ incoming).logs)
    ∧ (read₀ = ReadOutcome.otherError →
        "Error reading results file:" ∈
          (updateResultsFile read₀ incoming).logs) := by
  cases read₀ <;> simp [updateResultsFile]

/-- Claim C1 amended-theorem witness at concrete inputs. -/
theorem c1_read_failure_behaviour_witness :
    (updateResultsFile ReadOutcome.enoent cxIncoming).result =
      Except.ok cxIncoming
    ∧ "Results file not found, creating a new one." ∈
        (updateResultsFile ReadOutcome.enoent cxIncoming).logs := by
  have h := c1_read_failure_behaviour ReadOutcome.enoent cxIncoming
  exact ⟨h.1, h.2.2.1 rfl⟩

/-- Claim C2: merging existing results `E` with incoming results `I` returns
and writes exactly `E ++ I`: the length is `|E| + |I|`, every element of `E`
and `I` appears unchanged, and all of `E` precedes all of `I` with the
relative order inside each preserved. -/
theorem c2_merge_append (E I : List TestResult) :
    (updateResultsFile (ReadOutcome.ok E) I).result = Except.ok (E ++ I)
    ∧ (updateResultsFile (ReadOutcome.ok E) I).written = some (E ++ I)
    ∧ (E ++ I).length = E.length + I.length
    ∧ (E ++ I).take E.length = E
    ∧ (E ++ I).drop E.length = I := by
  exact ⟨rfl, rfl, List.length_append E I, List.take_left E I, List.drop_left E I⟩

/-! Result collection: `runAllTests` (index.js) -/

/-- Accumulated observable state of the `runAllTests` nested loops: the
`results` array, the number of provider requests issued (one `axios.post`
per (URL, location) pair), and the console messages. -/
structure RunState where
  results : List TestResult
  requests : Nat
  logs : List String
deriving DecidableEq, Repr

/-- One iteration of the inner loop body of `runAllTests`: issue the request
for `(u, l)`; on a `success`-status response push the data, on any other
status log a failure, and on a thrown error (`catch`) log it.  In every case
the loop continues with the updated accumulator. -/
def runStep (oracle : String → String → Except String TestResult)
    (st : RunState) (u l : String) : RunState :=
  match oracle u l with
  | Except.ok d =>
    if d.status == "success" then
      ⟨st.results ++ [d], st.requests + 1, st.logs ++ ["Success! Score:"]⟩
    else
      ⟨st.results, st.requests + 1,
        st.logs ++ ["Failed for " ++ u ++ " from " ++ l]⟩
  | Except.error e =>
    ⟨st.results, st.requests + 1,
      st.logs ++ ["Error testing " ++ u ++ " from " ++ l ++ ": " ++ e]⟩

/-- Embedding of `runAllTests` (index.js): sequential nested loops over URLs
(outer) and locations (inner), starting from an empty accumulator.  The
function is total: no branch rethrows, so collection never raises. -/
def runAllTests (oracle : String → String → Except String TestResult)
    (urls locs : List String) : RunState :=
  urls.foldl (fun st u => locs.foldl (fun st2 l => runStep oracle st2 u l) st)
    ⟨[], 0, []⟩

/-- The results one (URL, location) pair contributes: the pushed response on
a `success` status, nothing otherwise. -/
def pairResults (oracle : String → String → Except String TestResult)
    (u l : String) : List TestResult :=
  match oracle u l with
  | Except.ok d => if d.status == "success" then [d] else []
  | Except.error _ => []

/-- The console message one (URL, location) pair produces. -/
def pairLog (oracle : String → String → Except String TestResult)
    (u l : String) : String :=
  match oracle u l with
  | Except.ok d =>
    if d.status == "success" then "Success! Score:"
    else "Failed for " ++ u ++ " from " ++ l
  | Except.error e => "Error testing " ++ u ++ " from " ++ l ++ ": " ++ e

theorem runStep_eq (oracle : String → String → Except String TestResult)
    (st : RunState) (u l : String) :
    runStep oracle st u l =
      ⟨st.results ++ pairResults oracle u l, st.requests + 1,
        st.logs ++ [pairLog oracle u l]⟩ := by
  unfold runStep pairResults pairLog
  cases oracle u l with
  | ok d => by_cases hs : d.status == "success" <;> simp [hs]
  | error e => simp

theorem runAllTests_inner (oracle : String → String → Except String TestResult)
    (u : String) (locs : List String) (st : RunState) :
    locs.foldl (fun st2 l => runStep oracle st2 u l) st =
      ⟨st.results ++ (locs.map (fun l => pairResults oracle u l)).flatten,
        st.requests + locs.length,
        st.logs ++ locs.map (fun l => pairLog oracle u l)⟩ := by
  induction locs generalizing st with
  | nil => simp
  | cons l ls ih =>
    simp only [List.foldl_cons]
    rw [runStep_eq, ih]
    simp only [List.map_cons, List.flatten_cons, List.length_cons,
      List.append_assoc, List.cons_append, List.singleton_append,
      List.nil_append, RunState.mk.injEq]
    exact ⟨trivial, by omega, trivial⟩

/-- Characterization of `runAllTests`: the collected results are the
concatenation of the per-pair contributions in loop order, every pair issues
exactly one provider request, and every pair leaves exactly one log line. -/
theorem runAllTests_eq (oracle : String → String → Except String TestResult)
    (urls locs : List String) :
    runAllTests oracle urls locs =
      ⟨(urls.map
          (fun u => (locs.map (fun l => pairResults oracle u l)).flatten)).flatten,
        urls.length * locs.length,
        (urls.map (fun u => locs.map (fun l => pairLog oracle u l))).flatten⟩ := by
  unfold runAllTests
  suffices h : ∀ st : RunState,
      urls.foldl
          (fun st u => locs.foldl (fun st2 l => runStep oracle st2 u l) st)
          st =
        ⟨st.results ++
            (urls.map
              (fun u => (locs.map (fun l => pairResults oracle u l)).flatten)).flatten,
          st.requests + urls.length * locs.length,
          st.logs ++
            (urls.map (fun u => locs.map (fun l => pairLog oracle u l))).flatten⟩ by
    simpa using h ⟨[], 0, []⟩
  induction urls with
  | nil => intro st; simp
  | cons u us ih =>
    intro st
    simp only [List.foldl_cons]
    rw [runAllTests_inner, ih]
    simp only [List.map_cons, List.flatten_cons, List.length_cons,
      List.append_assoc, RunState.mk.injEq]
    exact ⟨trivial, by ring, trivial⟩

/-! Orchestration: `main` (index.js) -/

/-- JS falsiness of the credential check `if (!API_KEY)`: true when the
environment variable is unset (`undefined`) or set to the empty string. -/
def apiKeyFalsy : Option String → Bool
  | none => true
  | some s => s == ""

/-- Observable outcome of one `main` run: the `process.exit` code (`none`
means normal return), the number of provider requests issued, the contents
written to the results file (`none` when it is not rewritten), and whether
the HTML report was regenerated. -/
structure RunReport where
  exitCode : Option Nat
  requestCount : Nat
  fileWritten : Option (List TestResult)
  reportWritten : Bool
deriving DecidableEq, Repr

/-- Embedding of `main` (index.js): abort with exit code 1 before any network
activity when the credential is falsy; otherwise run all tests, return early
(no file write, no report) when zero new results were fetched, and otherwise
merge-and-persist and build the report. -/
def mainRun (apiKey : Option String)
    (oracle : String → String → Except String TestResult)
    (urls locs : List String) (read₀ : ReadOutcome) : RunReport :=
  if apiKeyFalsy apiKey then
    ⟨some 1, 0, none, false⟩
  else
    let st := runAllTests oracle urls locs
    if st.results.isEmpty then
      ⟨none, st.requests, none, false⟩
    else
      let upd := updateResultsFile read₀ st.results
      ⟨none, st.requests, upd.written, true⟩

/-- Concrete oracle where every provider call throws. -/
def oracleAllFail : String → String → Except String TestResult :=
  fun _ _ => Except.error "network down"

/-- A concrete success-status provider response. -/
def cxSuccess : TestResult := ⟨"https://x.test", "uk", 2, 60, 1, 1, 0, "success"⟩

/-- Concrete oracle where every provider call succeeds with `cxSuccess`. -/
def oracleAllOk : String → String → Except String TestResult :=
  fun _ _ => Except.ok cxSuccess

/-- Claim C5: result collection never raises — `runAllTests` is a total
function whose results are exactly the concatenation of per-pair
contributions, so a failing pair contributes zero results and does not
disturb the remaining pairs; every erroring pair is logged; and when every
pair fails the collected sequence is empty (the run proceeds). -/
theorem c5_collection_never_aborts
    (oracle : String → String → Except String TestResult)
    (urls locs : List String) :
    (runAllTests oracle urls locs).results =
      (urls.map
        (fun u => (locs.map (fun l => pairResults oracle u l)).flatten)).flatten
    ∧ (∀ u l, u ∈ urls → l ∈ locs → ∀ e, oracle u l = Except.error e →
        ("Error testing " ++ u ++ " from " ++ l ++ ": " ++ e) ∈
          (runAllTests oracle urls locs).logs)
    ∧ ((∀ u l, u ∈ urls → l ∈ locs → ∃ e, oracle u l = Except.error e) →
        (runAllTests oracle urls locs).results = []) := by
  refine ⟨by rw [runAllTests_eq], ?_, ?_⟩
  · intro u l hu hl e he
    rw [runAllTests_eq]
    simp only [List.mem_flatten, List.mem_map]
    refine ⟨locs.map (fun l => pairLog oracle u l), ⟨u, hu, rfl⟩, ?_⟩
    refine List.mem_map.2 ⟨l, hl, ?_⟩
    simp [pairLog, he]
  · intro hall
    rw [runAllTests_eq]
    simp only [List.flatten_eq_nil_iff, List.mem_map]
    rintro L ⟨u, hu, rfl⟩
    simp only [List.flatten_eq_nil_iff, List.mem_map]
    rintro L' ⟨l, hl, rfl⟩
    obtain ⟨e, he⟩ := hall u l hu hl
    simp [pairResults, he]

/-- Claim C5 witness: with every call failing, the one pair is logged and the
collected sequence is empty. -/
theorem c5_collection_never_aborts_witness :
    (runAllTests oracleAllFail ["https://x.test"] ["uk"]).results = []
    ∧ ("Error testing " ++ "https://x.test" ++ " from " ++ "uk" ++ ": " ++
        "network down") ∈
        (runAllTests oracleAllFail ["https://x.test"] ["uk"]).logs := by
  have h := c5_collection_never_aborts oracleAllFail ["https://x.test"] ["uk"]
  refine ⟨h.2.2 ?_, h.2.1 "https://x.test" "uk" (by simp) (by simp)
    "network down" rfl⟩
  intro u l _ _
  exact ⟨"network down", rfl⟩

/-- Claim C10: every element `runAllTests` appends to the dataset comes from
a provider response with status `success`, delivered by some configured
(URL, location) pair; no other response contributes an entry. -/
theorem c10_only_success_collected
    (oracle : String → String → Except String TestResult)
    (urls locs : List String) (r : TestResult)
    (hr : r ∈ (runAllTests oracle urls locs).results) :
    r.status = "success"
    ∧ ∃ u l, u ∈ urls ∧ l ∈ locs ∧ oracle u l = Except.ok r := by
  rw [runAllTests_eq] at hr
  obtain ⟨L, hL, hrL⟩ := List.mem_flatten.1 hr
  obtain ⟨u, hu, rfl⟩ := List.mem_map.1 hL
  obtain ⟨L', hL', hr'⟩ := List.mem_flatten.1 hrL
  obtain ⟨l₀, hl₀, rfl⟩ := List.mem_map.1 hL'
  revert hr'
  unfold pairResults
  cases ho : oracle u l₀ with
  | ok d =>
    by_cases hs : d.status == "success"
    · intro hr'
      simp only [hs, if_pos] at hr'
      obtain rfl : r = d := List.mem_singleton.1 hr'
      exact ⟨by simpa using hs, u, l₀, hu, hl₀, ho⟩
    · intro hr'
      simp [hs] at hr'
  | error e =>
    intro hr'
    simp at hr'

/-- Claim C10 witness at a concrete success oracle. -/
theorem c10_only_success_collected_witness :
    cxSuccess.status = "success"
    ∧ ∃ u l, u ∈ ["https://x.test"] ∧ l ∈ ["uk"] ∧
        oracleAllOk u l = Except.ok cxSuccess := by
  exact c10_only_success_collected oracleAllOk ["https://x.test"] ["uk"]
    cxSuccess (by decide)

/-- Claim C6: when the credential is falsy (unset or empty), `main` exits
with code 1 — a non-zero code — and zero provider requests are issued. -/
theorem c6_missing_key_aborts (apiKey : Option String)
    (oracle : String → String → Except String TestResult)
    (urls locs : List String) (read₀ : ReadOutcome)
    (h : apiKeyFalsy apiKey = true) :
    (mainRun apiKey oracle urls locs read₀).exitCode = some 1
    ∧ (∀ c, (mainRun apiKey oracle urls locs read₀).exitCode = some c → c ≠ 0)
    ∧ (mainRun apiKey oracle urls locs read₀).requestCount = 0 := by
  refine ⟨by simp [mainRun, h], ?_, by simp [mainRun, h]⟩
  intro c hc
  simp [mainRun, h] at hc
  omega

/-- Claim C6 witness with the credential absent. -/
theorem c6_missing_key_aborts_witness :
    (mainRun none oracleAllOk ["https://x.test"] ["uk"]
        ReadOutcome.enoent).exitCode = some 1
    ∧ (mainRun none oracleAllOk ["https://x.test"] ["uk"]
        ReadOutcome.enoent).requestCount = 0 := by
  have h := c6_missing_key_aborts none oracleAllOk ["https://x.test"] ["uk"]
    ReadOutcome.enoent rfl
  exact ⟨h.1, h.2.2⟩

/-- Claim C9: when the run yields zero new results, `main` returns early
(normal return, no exit call): the results file is not rewritten and no
report is generated. -/
theorem c9_zero_results_early_return (apiKey : Option String)
    (oracle : String → String → Except String TestResult)
    (urls locs : List String) (read₀ : ReadOutcome)
    (hk : apiKeyFalsy apiKey = false)
    (h0 : (runAllTests oracle urls locs).results = []) :
    (mainRun apiKey oracle urls locs read₀).fileWritten = none
    ∧ (mainRun apiKey oracle urls locs read₀).reportWritten = false
    ∧ (mainRun apiKey oracle urls locs read₀).exitCode = none := by
  refine ⟨?_, ?_, ?_⟩ <;> simp [mainRun, hk, h0]

/-- Claim C9 witness: a set credential with an all-failing oracle. -/
theorem c9_zero_results_early_return_witness :
    (mainRun (some "key") oracleAllFail ["https://x.test"] ["uk"]
        ReadOutcome.enoent).fileWritten = none
    ∧ (mainRun (some "key") oracleAllFail ["https://x.test"] ["uk"]
        ReadOutcome.enoent).reportWritten = false := by
  have h := c9_zero_results_early_return (some "key") oracleAllFail
    ["https://x.test"] ["uk"] ReadOutcome.enoent (by decide) (by decide)
  exact ⟨h.1, h.2.1⟩

/-! Report builder (index.js: `buildStaticPage`, `generateChartData`,
`generateTablesHtml`) -/

/-- The comparator `(a, b) => new Date(b.timestamp) - new Date(a.timestamp)`
passed to `Array.prototype.sort` in `buildStaticPage`: `a` may precede `b`
exactly when `b.timestamp ≤ a.timestamp` (descending, newest first). -/
def tsDesc (a b : TestResult) : Prop := b.timestamp ≤ a.timestamp

instance : DecidableRel tsDesc :=
  fun a b => Nat.decLe b.timestamp a.timestamp

instance : IsTotal TestResult tsDesc :=
  ⟨fun a b => Nat.le_total b.timestamp a.timestamp⟩

instance : IsTrans TestResult tsDesc :=
  ⟨fun _ _ _ h1 h2 => Nat.le_trans h2 h1⟩

/-- Key enumeration order of a JS `reduce` grouping object: string keys in
first-encounter (insertion) order, as `for...in` enumerates them. -/
def firstKeys (key : TestResult → String) : List TestResult → List String
  | [] => []
  | r :: rs => key r :: (firstKeys key rs).filter (fun k => !(k == key r))

/-- The `groupedByUrl` object built by the `reduce` in `buildStaticPage`:
keys in insertion order, each mapped to the results with that URL in
dataset order. -/
def groupedByUrl (results : List TestResult) :
    List (String × List TestResult) :=
  (firstKeys (fun r => r.url) results).map
    (fun k => (k, results.filter (fun r => r.url == k)))

/-- `buildStaticPage` then sorts each URL group in place by timestamp
descending (newest first); the engine sort is stable, modelled by a stable
insertion sort under the same comparator. -/
def sortedGroupedByUrl (results : List TestResult) :
    List (String × List TestResult) :=
  (groupedByUrl results).map (fun p => (p.1, List.insertionSort tsDesc p.2))

/-- The `byLocation` object the `reduce` in `generateChartData` builds per
URL group. -/
def byLocation (g : List TestResult) : List (String × List TestResult) :=
  (firstKeys (fun r => r.location) g).map
    (fun k => (k, g.filter (fun r => r.location == k)))

/-- One Chart.js dataset: the label parts and the `{x, y}` points. -/
structure ChartSeries where
  url : String
  location : String
  points : List (Nat × Int)
deriving DecidableEq, Repr

/-- Embedding of `generateChartData` applied (as in `buildStaticPage`) to
the sorted URL groups: one series per (URL, location) pair, whose points are
mapped from the group in its current order (`x` = timestamp, `y` =
performance). -/
def generateChartData (results : List TestResult) : List ChartSeries :=
  ((sortedGroupedByUrl results).map (fun p =>
    (byLocation p.2).map (fun q =>
      ChartSeries.mk p.1 q.1
        (q.2.map (fun r => (r.timestamp, r.performance)))))).flatten

/-- The CSS class of the Score cell in `generateTablesHtml`:
`performance >= 90` → green ("good"), `>= 50` → yellow ("needs
improvement"), otherwise red ("poor"). -/
def scoreClass (p : Int) : String :=
  if p ≥ 90 then "text-green-600"
  else if p ≥ 50 then "text-yellow-600"
  else "text-red-600"

/-- The rows of one URL's history table in `generateTablesHtml`: each result
of the (already sorted) group, unchanged, paired with its display class. -/
def tableRows (g : List TestResult) : List (TestResult × String) :=
  g.map (fun r => (r, scoreClass r.performance))

/-- Claim C8: each rendered row classifies its score by the thresholds
90/50 — green ("good") for ≥ 90, yellow ("needs improvement") for
50 ≤ score < 90, red ("poor") for < 50 — and the classification leaves the
stored records unchanged (the row data is exactly the group). -/
theorem c8_score_classification (g : List TestResult) :
    (tableRows g).map Prod.fst = g
    ∧ ∀ row ∈ tableRows g,
        (row.1.performance ≥ 90 → row.2 = "text-green-600")
        ∧ (50 ≤ row.1.performance ∧ row.1.performance < 90 →
            row.2 = "text-yellow-600")
        ∧ (row.1.performance < 50 → row.2 = "text-red-600") := by
  constructor
  · have hcomp :
        (Prod.fst ∘ fun r : TestResult => (r, scoreClass r.performance)) =
          id := rfl
    simp only [tableRows, List.map_map, hcomp, List.map_id]
  · intro row hrow
    obtain ⟨r, _, rfl⟩ := List.mem_map.1 hrow
    dsimp only
    refine ⟨?_, ?_, ?_⟩
    · intro h
      simp only [scoreClass]
      rw [if_pos (by omega)]
    · intro h
      simp only [scoreClass]
      rw [if_neg (by omega), if_pos (by omega)]
    · intro h
      simp only [scoreClass]
      rw [if_neg (by omega), if_neg (by omega)]

/-- Claim C8 witness: the concrete score 60 lands in a row classified
yellow ("needs improvement"), and the row data is unchanged. -/
theorem c8_score_classification_witness :
    (tableRows [cxSuccess]).map Prod.fst = [cxSuccess]
    ∧ ∃ row, row ∈ tableRows [cxSuccess] ∧ row.2 = "text-yellow-600" := by
  have h := c8_score_classification [cxSuccess]
  refine ⟨h.1, (cxSuccess, scoreClass cxSuccess.performance),
    by simp [tableRows], ?_⟩
  exact (h.2 _ (by simp [tableRows])).2.1 (by decide)

/-- The dataset used at the C4 counterexample: two results for the same
(URL, location) pair, the older one first. -/
def cxOld : TestResult := ⟨"https://x.test", "uk", 1, 95, 1, 1, 0, "success"⟩

/-- Two-result store: timestamps 1 then 2 in dataset order. -/
def cxStore : List TestResult := [cxOld, cxSuccess]

/-- Claim C4 counterexample: on a store holding timestamps 1 and 2 for one
(URL, location) pair, the derived chart series is `[(2, _), (1, _)]` —
adjacent points do NOT satisfy `timestamp(p1) ≤ timestamp(p2)`; the points
are newest first, not ascending. -/
theorem c4_counterexample :
    generateChartData cxStore =
      [ChartSeries.mk "https://x.test" "uk" [(2, 60), (1, 95)]]
    ∧ ¬ (∀ s ∈ generateChartData cxStore,
        List.Chain' (fun p q : Nat × Int => p.1 ≤ q.1) s.points) := by
  refine ⟨by decide, ?_⟩
  intro hall
  have hmem : ChartSeries.mk "https://x.test" "uk" [(2, 60), (1, 95)] ∈
      generateChartData cxStore := by decide
  have hchain := hall _ hmem
  obtain ⟨h21, -⟩ := List.chain'_cons.1 hchain
  omega

/-- Claim C4 (amended): within every derived chart series the points are in
descending chronological order — for all adjacent points `(p1, p2)`,
`timestamp(p2) ≤ timestamp(p1)` (newest first, inherited from the
descending group sort). -/
theorem c4_series_descending (results : List TestResult) (s : ChartSeries)
    (hs : s ∈ generateChartData results) :
    List.Chain' (fun p q : Nat × Int => q.1 ≤ p.1) s.points := by
  obtain ⟨Ls, hLs, hsL⟩ := List.mem_flatten.1 hs
  obtain ⟨p, hp, rfl⟩ := List.mem_map.1 hLs
  obtain ⟨q, hq, rfl⟩ := List.mem_map.1 hsL
  obtain ⟨p₀, _, rfl⟩ := List.mem_map.1 hp
  obtain ⟨k, _, rfl⟩ := List.mem_map.1 hq
  have hsorted : List.Pairwise tsDesc (List.insertionSort tsDesc p₀.2) :=
    List.sorted_insertionSort tsDesc p₀.2
  have hfilter : List.Pairwise tsDesc
      ((List.insertionSort tsDesc p₀.2).filter
        (fun r => r.location == k)) :=
    hsorted.filter _
  have hmap : List.Pairwise (fun p q : Nat × Int => q.1 ≤ p.1)
      (((List.insertionSort tsDesc p₀.2).filter
        (fun r => r.location == k)).map
        (fun r => (r.timestamp, r.performance))) :=
    hfilter.map _ (fun _ _ h => h)
  exact hmap.chain'

/-- Claim C4 amended-theorem witness: the concrete series derived from
`cxStore` is descending. -/
theorem c4_series_descending_witness :
    List.Chain' (fun p q : Nat × Int => q.1 ≤ p.1)
      (ChartSeries.mk "https://x.test" "uk" [(2, 60), (1, 95)]).points := by
  exact c4_series_descending cxStore _ (by decide)

/-! Partition property of the grouping steps (C7 machinery) -/

theorem firstKeys_nodup (key : TestResult → String) (l : List TestResult) :
    (firstKeys key l).Nodup := by
  induction l with
  | nil => exact List.nodup_nil
  | cons r rs ih =>
    refine List.nodup_cons.2 ⟨?_, ih.filter _⟩
    intro hmem
    have := List.of_mem_filter hmem
    simp at this

theorem mem_firstKeys_of_mem (key : TestResult → String) {x : TestResult}
    {l : List TestResult} (hx : x ∈ l) : key x ∈ firstKeys key l := by
  induction l with
  | nil => cases hx
  | cons r rs ih =>
    rcases List.mem_cons.1 hx with rfl | hx'
    · exact List.mem_cons_self _ _
    · by_cases h : key x = key r
      · rw [h]
        exact List.mem_cons_self _ _
      · refine List.mem_cons_of_mem _ (List.mem_filter.2 ⟨ih hx', ?_⟩)
        simpa using h

theorem flatten_filter_perm (key : TestResult → String) (ks : List String)
    (l : List TestResult) (hnd : ks.Nodup)
    (hcov : ∀ x ∈ l, key x ∈ ks) :
    ((ks.map (fun k => l.filter (fun x => key x == k))).flatten).Perm l := by
  induction ks generalizing l with
  | nil =>
    have hl : l = [] := by
      cases l with
      | nil => rfl
      | cons a as => exact absurd (hcov a (by simp)) (by simp)
    simp [hl]
  | cons k ks ih =>
    have hnd' := List.nodup_cons.1 hnd
    simp only [List.map_cons, List.flatten_cons]
    have hmaps : ∀ k' ∈ ks,
        l.filter (fun x => key x == k') =
          (l.filter (fun x => !(key x == k))).filter
            (fun x => key x == k') := by
      intro k' hk'
      rw [List.filter_filter]
      refine (List.filter_congr ?_).symm
      intro x _
      by_cases h : key x = k'
      · have hne : ¬ k' = k := fun hkk => hnd'.1 (hkk ▸ hk')
        simp [h, hne]
      · simp [h]
    have hrec :
        ((ks.map (fun k' => l.filter (fun x => key x == k'))).flatten).Perm
          (l.filter (fun x => !(key x == k))) := by
      rw [List.map_congr_left hmaps]
      refine ih _ hnd'.2 ?_
      intro x hx
      have hx' := List.mem_of_mem_filter hx
      have hne := List.of_mem_filter hx
      rcases List.mem_cons.1 (hcov x hx') with h | h
      · exfalso
        simp [h] at hne
      · exact h
    exact ((hrec.append_left (l.filter (fun x => key x == k))).trans
      (List.filter_append_perm _ l))

theorem grouped_flatten_perm (key : TestResult → String)
    (l : List TestResult) :
    (((firstKeys key l).map
      (fun k => l.filter (fun x => key x == k))).flatten).Perm l :=
  flatten_filter_perm key _ l (firstKeys_nodup key l)
    (fun _ hx => mem_firstKeys_of_mem key hx)

theorem flatten_map_perm {β : Type} (f g : β → List TestResult)
    (ks : List β) (h : ∀ k ∈ ks, (f k).Perm (g k)) :
    ((ks.map f).flatten).Perm ((ks.map g).flatten) := by
  induction ks with
  | nil => simp
  | cons k ks ih =>
    simp only [List.map_cons, List.flatten_cons]
    exact (h k (by simp)).append (ih (fun k' hk' => h k' (by simp [hk'])))

/-- Claim C7: grouping by URL (and then by (URL, location), through the
in-place sort that sits between the two grouping steps) is a partition with
no loss: the concatenation of all grouped elements is a permutation of the
original dataset — the multiset union equals the original, nothing dropped,
nothing duplicated. -/
theorem c7_grouping_is_partition (results : List TestResult) :
    (((groupedByUrl results).map Prod.snd).flatten).Perm results
    ∧ (((sortedGroupedByUrl results).map
        (fun p => ((byLocation p.2).map Prod.snd).flatten)).flatten).Perm
        results := by
  constructor
  · have hmap : (groupedByUrl results).map Prod.snd =
        (firstKeys (fun r => r.url) results).map
          (fun k => results.filter (fun r => r.url == k)) := by
      simp [groupedByUrl, List.map_map, Function.comp_def]
    rw [hmap]
    exact grouped_flatten_perm _ results
  · have hstep1 :
        (((sortedGroupedByUrl results).map
          (fun p => ((byLocation p.2).map Prod.snd).flatten)).flatten).Perm
          (((sortedGroupedByUrl results).map Prod.snd).flatten) := by
      refine flatten_map_perm _ _ _ ?_
      intro p _
      have hmap : (byLocation p.2).map Prod.snd =
          (firstKeys (fun r => r.location) p.2).map
            (fun k => p.2.filter (fun r => r.location == k)) := by
        simp [byLocation, List.map_map, Function.comp_def]
      rw [hmap]
      exact grouped_flatten_perm _ p.2
    have hstep2 :
        (((sortedGroupedByUrl results).map Prod.snd).flatten).Perm
          (((groupedByUrl results).map Prod.snd).flatten) := by
      have hmaps :
          (sortedGroupedByUrl results).map Prod.snd =
            (groupedByUrl results).map
              (fun p => List.insertionSort tsDesc p.2) := by
        simp [sortedGroupedByUrl, List.map_map, Function.comp_def]
      rw [hmaps]
      refine flatten_map_perm _ _ _ ?_
      intro p _
      exact List.perm_insertionSort tsDesc p.2
    have hstep3 : (((groupedByUrl results).map Prod.snd).flatten).Perm
        results := by
      have hmap : (groupedByUrl results).map Prod.snd =
          (firstKeys (fun r => r.url) results).map
            (fun k => results.filter (fun r => r.url == k)) := by
        simp [groupedByUrl, List.map_map, Function.comp_def]
      rw [hmap]
      exact grouped_flatten_perm _ results
    exact (hstep1.trans hstep2).trans hstep3

/-! Retrying request client: `safeRequestWithRetry`
(src/unnamed/part_000) -/

/-- Observable outcome of one `safeRequestWithRetry` call: the value it
returns or the error it finally throws (`none` models the JS function
returning `undefined` when the loop body never runs, i.e. `retries = 0`),
the number of attempts actually made, and the sequence of backoff delays
awaited, in order. -/
structure RetryOutcome (ε ρ : Type) where
  result : Option (Except ε ρ)
  attempts : Nat
  delays : List Nat
deriving Repr

/-- The `for (let attempt = 1; attempt <= retries; attempt++)` loop of
`safeRequestWithRetry`, with the current `attempt`, the attempts left
(`remaining = retries - attempt + 1`) and the current `delayMs`.  A
successful call returns immediately; on a caught error the final attempt
(`attempt === retries`, i.e. no attempt remains after this one) rethrows,
and otherwise the loop waits `delayMs`, doubles it, and retries. -/
def retryGo {ε ρ : Type} (oracle : Nat → Except ε ρ)
    (attempt remaining delayMs : Nat) : RetryOutcome ε ρ :=
  match remaining with
  | 0 => ⟨none, 0, []⟩
  | Nat.succ rem =>
    match oracle attempt with
    | Except.ok r => ⟨some (Except.ok r), 1, []⟩
    | Except.error e =>
      match rem with
      | 0 => ⟨some (Except.error e), 1, []⟩
      | Nat.succ rem' =>
        let rest := retryGo oracle (attempt + 1) (Nat.succ rem') (delayMs * 2)
        ⟨rest.result, rest.attempts + 1, delayMs :: rest.delays⟩

/-- Embedding of `safeRequestWithRetry(params, retries = 3)`: attempts start
at 1 and `delayMs` starts at 1000.  The oracle gives the outcome of the
`axios.post` call at each attempt number. -/
def safeRequestWithRetry {ε ρ : Type} (oracle : Nat → Except ε ρ)
    (retries : Nat) : RetryOutcome ε ρ :=
  retryGo oracle 1 retries 1000


theorem retryGo_zero {ε ρ : Type} (oracle : Nat → Except ε ρ)
    (attempt delayMs : Nat) :
    retryGo oracle attempt 0 delayMs = ⟨none, 0, []⟩ := rfl

theorem retryGo_succ_ok {ε ρ : Type} (oracle : Nat → Except ε ρ)
    (attempt rem delayMs : Nat) (r : ρ) (h : oracle attempt = Except.ok r) :
    retryGo oracle attempt (Nat.succ rem) delayMs =
      ⟨some (Except.ok r), 1, []⟩ := by
  unfold retryGo
  rw [h]

theorem retryGo_one_error {ε ρ : Type} (oracle : Nat → Except ε ρ)
    (attempt delayMs : Nat) (e : ε) (h : oracle attempt = Except.error e) :
    retryGo oracle attempt 1 delayMs = ⟨some (Except.error e), 1, []⟩ := by
  unfold retryGo
  rw [h]

theorem retryGo_succ2_error {ε ρ : Type} (oracle : Nat → Except ε ρ)
    (attempt rem' delayMs : Nat) (e : ε)
    (h : oracle attempt = Except.error e) :
    retryGo oracle attempt (Nat.succ (Nat.succ rem')) delayMs =
      ⟨(retryGo oracle (attempt + 1) (Nat.succ rem') (delayMs * 2)).result,
        (retryGo oracle (attempt + 1) (Nat.succ rem') (delayMs * 2)).attempts
          + 1,
        delayMs ::
          (retryGo oracle (attempt + 1) (Nat.succ rem') (delayMs * 2)).delays⟩
    := by
  conv_lhs => unfold retryGo
  rw [h]

theorem retryGo_spec {ε ρ : Type} (oracle : Nat → Except ε ρ)
    (remaining : Nat) :
    ∀ attempt delayMs : Nat,
      (retryGo oracle attempt remaining delayMs).attempts ≤ remaining
      ∧ (1 ≤ remaining →
          1 ≤ (retryGo oracle attempt remaining delayMs).attempts)
      ∧ (retryGo oracle attempt remaining delayMs).delays.length =
          (retryGo oracle attempt remaining delayMs).attempts - 1
      ∧ ∀ i,
          (h : i < (retryGo oracle attempt remaining delayMs).delays.length) →
          (retryGo oracle attempt remaining delayMs).delays.get ⟨i, h⟩ =
            delayMs * 2 ^ i := by
  induction remaining with
  | zero =>
    intro attempt delayMs
    rw [retryGo_zero]
    exact ⟨Nat.le_refl 0, by omega, rfl, fun i h => absurd h (by simp)⟩
  | succ rem ih =>
    intro attempt delayMs
    cases ho : oracle attempt with
    | ok r =>
      rw [retryGo_succ_ok oracle attempt rem delayMs r ho]
      exact ⟨Nat.succ_le_succ (Nat.zero_le rem), fun _ => Nat.le_refl 1, rfl,
        fun i h => absurd h (by simp)⟩
    | error e =>
      cases rem with
      | zero =>
        rw [retryGo_one_error oracle attempt delayMs e ho]
        exact ⟨Nat.le_refl 1, fun _ => Nat.le_refl 1, rfl,
          fun i h => absurd h (by simp)⟩
      | succ rem' =>
        obtain ⟨h1, h2, h3, h4⟩ := ih (attempt + 1) (delayMs * 2)
        rw [retryGo_succ2_error oracle attempt rem' delayMs e ho]
        dsimp only
        simp only [Nat.succ_eq_add_one] at h1 h2 h3 h4 ⊢
        refine ⟨by omega, fun _ => by omega, ?_, ?_⟩
        · have h2' := h2 (by omega)
          simp only [List.length_cons, h3]
          omega
        · intro i h
          cases i with
          | zero => simp
          | succ j =>
            have hj : j <
                (retryGo oracle (attempt + 1) (Nat.succ rem')
                  (delayMs * 2)).delays.length := by
              simpa using Nat.lt_of_succ_lt_succ h
            simp only [List.get_cons_succ]
            rw [h4 j hj]
            ring

theorem retryGo_all_fail {ε ρ : Type} (oracle : Nat → Except ε ρ)
    (remaining : Nat) :
    ∀ attempt delayMs : Nat, 1 ≤ remaining →
      (∀ k, attempt ≤ k → k < attempt + remaining →
        ∃ e, oracle k = Except.error e) →
      ∃ e, oracle (attempt + remaining - 1) = Except.error e ∧
        (retryGo oracle attempt remaining delayMs).result =
          some (Except.error e) := by
  induction remaining with
  | zero =>
    intro attempt delayMs h
    omega
  | succ rem ih =>
    intro attempt delayMs _ hall
    obtain ⟨e, he⟩ := hall attempt (Nat.le_refl _) (by omega)
    cases rem with
    | zero =>
      refine ⟨e, by simpa using he, ?_⟩
      rw [retryGo_one_error oracle attempt delayMs e he]
    | succ rem' =>
      have hall' : ∀ k, attempt + 1 ≤ k → k < attempt + 1 + Nat.succ rem' →
          ∃ e, oracle k = Except.error e := by
        intro k hk1 hk2
        exact hall k (by omega) (by omega)
      obtain ⟨e', he', hres⟩ := ih (attempt + 1) (delayMs * 2) (by omega) hall'
      refine ⟨e', ?_, ?_⟩
      · have harith : attempt + 1 + Nat.succ rem' - 1 =
            attempt + Nat.succ (Nat.succ rem') - 1 := by omega
        rw [harith] at he'
        exact he'
      · rw [retryGo_succ2_error oracle attempt rem' delayMs e he]
        exact hres

/-- Claim C3: `safeRequestWithRetry` makes at most `retries` attempts
(default 3 in the source); the delays waited before retries follow
`delays[i] = 1000 * 2 ^ i` — a base of 1000 ms before attempt 2, exactly
doubling before each subsequent attempt — with one delay per attempt after
the first; and when every attempt up to `retries` fails, the error of the
final attempt is propagated to the caller. -/
theorem c3_retry_backoff {ε ρ : Type} (oracle : Nat → Except ε ρ)
    (retries : Nat) :
    (safeRequestWithRetry oracle retries).attempts ≤ retries
    ∧ (safeRequestWithRetry oracle retries).delays.length =
        (safeRequestWithRetry oracle retries).attempts - 1
    ∧ (∀ i, (h : i < (safeRequestWithRetry oracle retries).delays.length) →
        (safeRequestWithRetry oracle retries).delays.get ⟨i, h⟩ =
          1000 * 2 ^ i)
    ∧ (1 ≤ retries →
        (∀ k, 1 ≤ k → k ≤ retries → ∃ e, oracle k = Except.error e) →
        ∃ e, oracle retries = Except.error e ∧
          (safeRequestWithRetry oracle retries).result =
            some (Except.error e)) := by
  obtain ⟨h1, _, h3, h4⟩ := retryGo_spec oracle retries 1 1000
  refine ⟨h1, h3, h4, ?_⟩
  intro hr hall
  have hall' : ∀ k, 1 ≤ k → k < 1 + retries →
      ∃ e, oracle k = Except.error e :=
    fun k hk1 hk2 => hall k hk1 (by omega)
  obtain ⟨e, he, hres⟩ := retryGo_all_fail oracle retries 1 1000 hr hall'
  have harith : 1 + retries - 1 = retries := by omega
  rw [harith] at he
  exact ⟨e, he, hres⟩

/-- Concrete always-failing call oracle for the retry client. -/
def oracleRetryFail : Nat → Except String Unit :=
  fun _ => Except.error "boom"

/-- Claim C3 witness at the default budget of 3 attempts: at most 3 attempts
are made, the delays are exactly [1000, 2000], and the final error is
propagated. -/
theorem c3_retry_backoff_witness :
    (safeRequestWithRetry oracleRetryFail 3).attempts ≤ 3
    ∧ (safeRequestWithRetry oracleRetryFail 3).delays = [1000, 2000]
    ∧ ∃ e, oracleRetryFail 3 = Except.error e ∧
        (safeRequestWithRetry oracleRetryFail 3).result =
          some (Except.error e) := by
  have h := c3_retry_backoff oracleRetryFail 3
  exact ⟨h.1, by decide, h.2.2.2 (by omega) (fun k _ _ => ⟨"boom", rfl⟩)⟩
